import Mathlib

/-!
Verification of the DeepFlags command-line parsing library.

The definitions below are a shallow embedding of `DeepFlags.hpp`:
`Reader` models `Flags::Internal::ArgReader`, `FlagNode` models the
flag-node tree (`PrimitiveFlag`, `Switch`, `VectorFlag`, `FlagGroup`),
and `parseArgsR`/`groupLoop` model the recursive dispatch engine, with a
fuel parameter standing in for the C++ call stack (`none` = out of fuel).
-/

namespace DeepFlags

/-- The null character, used by the C++ code as "no short name" / "no
short flag" sentinel (`char shortName = 0`). -/
def nulChar : Char := Char.ofNat 0

/-! ## Value parsing (`Flags::Internal::ParseType`) -/

/-- The element types modelled here, mirroring the `ParseType`
specializations used by the claims (bool, char, string, `int32_t`,
`int64_t`). -/
inductive PrimType where
  | pBool
  | pChar
  | pString
  | pI32
  | pI64
  deriving DecidableEq, Repr

/-- A parsed primitive value (`PrimitiveFlag<P>::value`). -/
inductive PValue where
  | vBool (b : Bool)
  | vChar (c : Char)
  | vStr (s : String)
  | vInt (i : Int)
  deriving DecidableEq, Repr

/-- Default-constructed value `P()` for each primitive type. -/
def PrimType.defaultValue : PrimType → PValue
  | .pBool => .vBool false
  | .pChar => .vChar nulChar
  | .pString => .vStr ""
  | .pI32 => .vInt 0
  | .pI64 => .vInt 0

/-- `Flags::Internal::lower`: lowercase every character. -/
def lowerStr (s : String) : String := ⟨s.toList.map Char.toLower⟩

/-- `Flags::Internal::boolNames`, the accepted boolean spellings. -/
def boolNames : List (String × Bool) :=
  [("1", true), ("on", true), ("yes", true), ("true", true),
   ("0", false), ("no", false), ("off", false), ("false", false)]

/-- `ParseType<bool>`: look the lowercased string up in `boolNames`. -/
def parseBool (s : String) : Option Bool :=
  boolNames.lookup (lowerStr s)

/-- `isspace` in the C locale. -/
def cIsSpace (c : Char) : Bool :=
  c = ' ' || c = '\t' || c = '\n' || c = Char.ofNat 11 || c = Char.ofNat 12 || c = '\r'

/-- Value of a hex digit character, if it is one. -/
def hexVal? (c : Char) : Option Nat :=
  if '0' ≤ c ∧ c ≤ '9' then some (c.toNat - '0'.toNat)
  else if 'a' ≤ c ∧ c ≤ 'f' then some (c.toNat - 'a'.toNat + 10)
  else if 'A' ≤ c ∧ c ≤ 'F' then some (c.toNat - 'A'.toNat + 10)
  else none

/-- Value of a digit character in the given base, if valid. -/
def digitVal? (base : Nat) (c : Char) : Option Nat :=
  match hexVal? c with
  | some v => if v < base then some v else none
  | none => none

/-- Accumulate the longest digit run (like `strtoll` does, ignoring any
trailing garbage). -/
def readDigits (base : Nat) : List Char → Nat → Nat
  | [], acc => acc
  | c :: cs, acc =>
    match digitVal? base c with
    | some v => readDigits base cs (acc * base + v)
    | none => acc

/-- Whether the list starts with a digit of the given base. -/
def hasDigit (base : Nat) : List Char → Bool
  | [] => false
  | c :: _ => (digitVal? base c).isSome

def int32Min : Int := -(2 ^ 31)
def int32Max : Int := 2 ^ 31 - 1
def int64Min : Int := -(2 ^ 63)
def int64Max : Int := 2 ^ 63 - 1

/-- `std::stoll(val, nullptr, 0)` as used by `ParseIntType`: skip
whitespace, optional sign, base detection (`0x` hex, leading `0` octal,
else decimal), longest digit run; `none` on no digits or on overflow of
`long long` (the thrown exceptions are caught and become errors). -/
def stollBase0 (s : String) : Option Int :=
  let cs := s.toList.dropWhile cIsSpace
  let sgn : Int := match cs with
    | '-' :: _ => -1
    | _ => 1
  let cs := match cs with
    | '-' :: rest => rest
    | '+' :: rest => rest
    | other => other
  let baseCs : Nat × List Char := match cs with
    | '0' :: x :: rest =>
      if (x = 'x' ∨ x = 'X') ∧ hasDigit 16 rest then (16, rest)
      else (8, '0' :: x :: rest)
    | other => (10, other)
  if hasDigit baseCs.1 baseCs.2 then
    let n : Int := sgn * (readDigits baseCs.1 baseCs.2 0 : Int)
    if n < int64Min ∨ n > int64Max then none else some n
  else none

/-- `ParseType<P>` for each modelled type: `none` is `error = true`. -/
def parsePrim : PrimType → String → Option PValue
  | .pBool, s => (parseBool s).map PValue.vBool
  | .pChar, s =>
    if s.toList.length = 1 then some (.vChar (s.toList.headD nulChar)) else none
  | .pString, s => some (.vStr s)
  | .pI32, s =>
    match stollBase0 s with
    | some n => if int32Min ≤ n ∧ n ≤ int32Max then some (.vInt n) else none
    | none => none
  | .pI64, s => (stollBase0 s).map .vInt

/-! ## The argument tokenizer (`Flags::Internal::ArgReader`) -/

/-- State of `ArgReader`. `charFlags` is the queue of pending stacked
short flags; `argv` is indexed by `position` with `argc` as the bound
(reads past the list, like `argv[argc]` in C++, yield `""`). -/
structure Reader where
  argc : Nat
  argv : List String
  charKey : Char := nulChar
  key : String := ""
  value : String := ""
  flagAbsent : Bool := true
  flagIsCharacter : Bool := false
  valueSpecified : Bool := false
  clearedOut : Bool := false
  position : Nat := 0
  charFlags : List Char := []
  deriving DecidableEq, Repr

/-- `ArgReader::ArgReader`: a negative argc clamps to zero. -/
def mkReader (argc : Int) (argv : List String) : Reader :=
  { argc := argc.toNat, argv := argv }

def Reader.atEnd (r : Reader) : Bool := r.clearedOut

def Reader.hasMoreArguments (r : Reader) : Bool := r.position < r.argc

def Reader.hasValue (r : Reader) : Bool := r.valueSpecified

def Reader.getValue (r : Reader) : String := r.value

def Reader.hasAnyFlag (r : Reader) : Bool := !r.flagAbsent

def Reader.hasLongFlag (r : Reader) : Bool := !r.flagAbsent && !r.flagIsCharacter

def Reader.hasShortFlag (r : Reader) : Bool := !r.flagAbsent && r.flagIsCharacter

def Reader.getLongFlag (r : Reader) : String := r.key

def Reader.getShortFlag (r : Reader) : Char := r.charKey

def Reader.tell (r : Reader) : Nat := r.position

/-- `ArgReader::parseNextArg`, translated clause for clause: reset the
token fields (`key` is deliberately not reset), pop a pending stacked
short flag if any, otherwise advance the cursor and classify the next
raw argument as a bare value, a long flag (splitting at the first `=`
past the `--`), or a short-flag cluster. -/
def Reader.parseNextArg (r : Reader) : Reader :=
  let r := { r with flagAbsent := false, valueSpecified := false,
                    flagIsCharacter := false, value := "", charKey := nulChar }
  match r.charFlags with
  | c :: rest => { r with flagIsCharacter := true, charKey := c, charFlags := rest }
  | [] =>
    if r.position ≥ r.argc then { r with key := "", clearedOut := true }
    else if r.position + 1 ≥ r.argc then
      { r with position := r.position + 1, key := "", clearedOut := true }
    else
      let pos := r.position + 1
      let curArg := r.argv.getD pos ""
      let r := { r with position := pos }
      match curArg.toList with
      | '-' :: '-' :: rest =>
        match rest.findIdx? (· = '=') with
        | some i =>
          { r with key := ⟨rest.take i⟩, value := ⟨rest.drop (i + 1)⟩,
                   valueSpecified := true }
        | none => { r with key := ⟨rest⟩ }
      | '-' :: rest =>
        { r with flagIsCharacter := true, key := "",
                 charKey := rest.headD nulChar, charFlags := rest.tail }
      | _ =>
        { r with key := "", value := curArg, flagAbsent := true,
                 valueSpecified := true }

/-- `ArgReader::nextRawArgument`: unconditionally pull the next raw
argument as a value (returned paired with the updated reader). -/
def Reader.nextRawArgument (r : Reader) : String × Reader :=
  let pos := r.position + 1
  let v := r.argv.getD pos ""
  (v, { r with flagAbsent := true, valueSpecified := true, flagIsCharacter := false,
               key := "", value := v, position := pos })

/-! ## The flag-node tree -/

/-- One node of the flag tree. `prim` is `PrimitiveFlag<P>` (long name,
short name, type, `present`, `value`), `sw` is `Switch`, `vec` is
`VectorFlag<T, greedy, reentrant>` (with `entered`, the pristine element
parser produced by `newFlag()` as `template`, and the accumulated
elements stored as their final parser states), and `grp` is `FlagGroup`
with its ordered members. -/
inductive FlagNode where
  | prim (longName : String) (shortName : Char) (ptype : PrimType)
         (present : Bool) (pvalue : PValue)
  | sw (longName : String) (shortName : Char) (present : Bool)
  | vec (longName : String) (shortName : Char) (greedy reentrant entered : Bool)
        (template : FlagNode) (values : List FlagNode)
  | grp (longName : String) (shortName : Char) (members : List FlagNode)

mutual

/-- Structural boolean equality on flag nodes (used to give `FlagNode`
decidable equality, which the derive handler cannot produce for this
nested inductive). -/
def FlagNode.beq : FlagNode → FlagNode → Bool
  | .prim l1 s1 t1 p1 v1, .prim l2 s2 t2 p2 v2 =>
    decide (l1 = l2) && decide (s1 = s2) && decide (t1 = t2) &&
    decide (p1 = p2) && decide (v1 = v2)
  | .sw l1 s1 p1, .sw l2 s2 p2 =>
    decide (l1 = l2) && decide (s1 = s2) && decide (p1 = p2)
  | .vec l1 s1 g1 re1 e1 t1 vs1, .vec l2 s2 g2 re2 e2 t2 vs2 =>
    decide (l1 = l2) && decide (s1 = s2) && decide (g1 = g2) &&
    decide (re1 = re2) && decide (e1 = e2) &&
    FlagNode.beq t1 t2 && beqNodes vs1 vs2
  | .grp l1 s1 m1, .grp l2 s2 m2 =>
    decide (l1 = l2) && decide (s1 = s2) && beqNodes m1 m2
  | _, _ => false

/-- Pointwise `FlagNode.beq` on lists. -/
def beqNodes : List FlagNode → List FlagNode → Bool
  | [], [] => true
  | a :: as, b :: bs => FlagNode.beq a b && beqNodes as bs
  | _, _ => false

end

mutual

theorem FlagNode.beq_iff : ∀ a b : FlagNode, FlagNode.beq a b = true ↔ a = b
  | .prim _ _ _ _ _, .prim _ _ _ _ _ => by simp [FlagNode.beq, and_assoc]
  | .prim _ _ _ _ _, .sw _ _ _ => by simp [FlagNode.beq]
  | .prim _ _ _ _ _, .vec _ _ _ _ _ _ _ => by simp [FlagNode.beq]
  | .prim _ _ _ _ _, .grp _ _ _ => by simp [FlagNode.beq]
  | .sw _ _ _, .prim _ _ _ _ _ => by simp [FlagNode.beq]
  | .sw _ _ _, .sw _ _ _ => by simp [FlagNode.beq, and_assoc]
  | .sw _ _ _, .vec _ _ _ _ _ _ _ => by simp [FlagNode.beq]
  | .sw _ _ _, .grp _ _ _ => by simp [FlagNode.beq]
  | .vec _ _ _ _ _ _ _, .prim _ _ _ _ _ => by simp [FlagNode.beq]
  | .vec _ _ _ _ _ _ _, .sw _ _ _ => by simp [FlagNode.beq]
  | .vec _ _ _ _ _ t1 vs1, .vec _ _ _ _ _ t2 vs2 => by
    simp [FlagNode.beq, FlagNode.beq_iff t1 t2, beqNodes_iff vs1 vs2, and_assoc]
  | .vec _ _ _ _ _ _ _, .grp _ _ _ => by simp [FlagNode.beq]
  | .grp _ _ _, .prim _ _ _ _ _ => by simp [FlagNode.beq]
  | .grp _ _ _, .sw _ _ _ => by simp [FlagNode.beq]
  | .grp _ _ _, .vec _ _ _ _ _ _ _ => by simp [FlagNode.beq]
  | .grp _ _ m1, .grp _ _ m2 => by
    simp [FlagNode.beq, beqNodes_iff m1 m2, and_assoc]

theorem beqNodes_iff : ∀ as bs : List FlagNode, beqNodes as bs = true ↔ as = bs
  | [], [] => by simp [beqNodes]
  | [], _ :: _ => by simp [beqNodes]
  | _ :: _, [] => by simp [beqNodes]
  | a :: as, b :: bs => by
    simp [beqNodes, FlagNode.beq_iff a b, beqNodes_iff as bs]

end

instance : DecidableEq FlagNode :=
  fun a b => decidable_of_iff _ (FlagNode.beq_iff a b)

/-- `FlagBase::getLongName`. -/
def FlagNode.longNameOf : FlagNode → String
  | .prim ln _ _ _ _ => ln
  | .sw ln _ _ => ln
  | .vec ln _ _ _ _ _ _ => ln
  | .grp ln _ _ => ln

/-- `FlagBase::getShortName`. -/
def FlagNode.shortNameOf : FlagNode → Char
  | .prim _ sn _ _ _ => sn
  | .sw _ sn _ => sn
  | .vec _ sn _ _ _ _ _ => sn
  | .grp _ sn _ => sn

mutual

/-- `hasFlag(string)` for each node kind: leaves compare their own long
name; `VectorFlag` also consults a fresh element parser (`newFlag()`,
i.e. the stored template); `FlagGroup` searches its members only. -/
def FlagNode.hasFlagL : String → FlagNode → Bool
  | name, .prim ln _ _ _ _ => ln = name
  | name, .sw ln _ _ => ln = name
  | name, .vec ln _ _ _ _ tmpl _ => ln = name || FlagNode.hasFlagL name tmpl
  | name, .grp _ _ ms => hasFlagLs name ms

/-- `FlagGroup::hasFlag(string)`: any member answers. -/
def hasFlagLs : String → List FlagNode → Bool
  | _, [] => false
  | name, m :: ms => FlagNode.hasFlagL name m || hasFlagLs name ms

end

mutual

/-- `hasFlag(char)` for each node kind, mirroring `hasFlagL`. -/
def FlagNode.hasFlagC : Char → FlagNode → Bool
  | name, .prim _ sn _ _ _ => sn = name
  | name, .sw _ sn _ => sn = name
  | name, .vec _ sn _ _ _ tmpl _ => sn = name || FlagNode.hasFlagC name tmpl
  | name, .grp _ _ ms => hasFlagCs name ms

/-- `FlagGroup::hasFlag(char)`: any member answers. -/
def hasFlagCs : Char → List FlagNode → Bool
  | _, [] => false
  | name, m :: ms => FlagNode.hasFlagC name m || hasFlagCs name ms

end

mutual

/-- `atCapacity` for each node kind: a primitive or switch once present,
a vector once `entered && !reentrant`, a group when all members are at
capacity. -/
def FlagNode.atCapacity : FlagNode → Bool
  | .prim _ _ _ present _ => present
  | .sw _ _ present => present
  | .vec _ _ _ reentrant entered _ _ => entered && !reentrant
  | .grp _ _ ms => allAtCapacity ms

/-- `FlagGroup::atCapacity`: every member is at capacity. -/
def allAtCapacity : List FlagNode → Bool
  | [] => true
  | m :: ms => FlagNode.atCapacity m && allAtCapacity ms

end

/-- Index into `membersByLongName`: the C++ `std::map` is filled by
`addFlag` with `operator[]`, so the last member registered under a long
name wins; members with no long name are not registered. Returns the
index of that member. -/
def lookupLongIdx : List FlagNode → String → Option Nat
  | [], _ => none
  | m :: ms, name =>
    match lookupLongIdx ms name with
    | some i => some (i + 1)
    | none => if m.longNameOf = name ∧ m.longNameOf ≠ "" then some 0 else none

/-- Index into `membersByShortName`, with the null character standing
for "no short name" exactly as `char shortname = 0` does. -/
def lookupShortIdx : List FlagNode → Char → Option Nat
  | [], _ => none
  | m :: ms, name =>
    match lookupShortIdx ms name with
    | some i => some (i + 1)
    | none => if m.shortNameOf = name ∧ m.shortNameOf ≠ nulChar then some 0 else none

/-- `VectorFlag::canReenter`: a non-reentrant vector never re-enters;
otherwise the current flag token's name is checked against the element
parser (`flag`) with `hasFlag`. -/
def canReenter (r : Reader) (reentrant : Bool) (flag : FlagNode) : Bool :=
  if !reentrant then false
  else if r.hasShortFlag then FlagNode.hasFlagC r.getShortFlag flag
  else FlagNode.hasFlagL r.getLongFlag flag

/-- The greedy continuation guard of `VectorFlag::parseArgsR` after a
successful append: continue when the next token is no flag at all, or
when `canReenter` accepts it. -/
def vecContinue (r : Reader) (reentrant : Bool) (flag : FlagNode) : Bool :=
  !r.hasAnyFlag || canReenter r reentrant flag

/-- The member the group dispatches to (`flag->second` in the C++ map
lookup); the default is never used, indices come from the lookups. -/
def getMember (ms : List FlagNode) (i : Nat) : FlagNode :=
  ms.getD i (.grp "" nulChar [])

/-! ## The recursive dispatch engine

`parseArgsR fuel n r` models `n->parseArgsR(argReader)`: the result is
`some (ok, n', r')` with the C++ boolean return, the node with all
mutations the call performed (mutations persist even when the call
returns false), and the updated reader. `none` means the fuel ran out,
standing for a non-terminating C++ execution. `groupLoop` is the
`while (!argReader.atEnd())` loop of `FlagGroup::parseArgsR`. -/

mutual

/-- `parseArgsR` of `SingletonFlag`/`PrimitiveFlag`, `Switch`,
`VectorFlag` and `FlagGroup`, translated clause for clause. -/
def parseArgsR : Nat → FlagNode → Reader → Option (Bool × FlagNode × Reader)
  | 0, _, _ => none
  | fuel + 1, n, r =>
    match n with
    | .prim ln sn pt _ _ =>
      if r.hasValue then
        match parsePrim pt r.getValue with
        | none => some (false, n, r)
        | some v => some (true, .prim ln sn pt true v, r.parseNextArg)
      else if r.hasMoreArguments then
        let raw := r.nextRawArgument
        match parsePrim pt raw.1 with
        | none => some (false, n, raw.2)
        | some v => some (true, .prim ln sn pt true v, raw.2.parseNextArg)
      else some (false, n, r)
    | .sw ln sn _ =>
      if r.hasValue then some (false, n, r)
      else some (true, .sw ln sn true, r.parseNextArg)
    | .vec ln sn greedy reentrant _ tmpl values =>
      let pos := r.tell
      match parseArgsR fuel tmpl r with
      | none => none
      | some (false, _, r') =>
        some (false, .vec ln sn greedy reentrant true tmpl values, r')
      | some (true, flag, r') =>
        if r'.tell = pos then
          some (true, .vec ln sn greedy reentrant true tmpl values, r')
        else if greedy && vecContinue r' reentrant flag then
          parseArgsR fuel
            (.vec ln sn greedy reentrant true tmpl (values ++ [flag])) r'
        else
          some (true, .vec ln sn greedy reentrant true tmpl (values ++ [flag]), r')
    | .grp ln sn ms =>
      if r.hasLongFlag = r.hasShortFlag then some (false, n, r)
      else
        let r :=
          if (ln ≠ "" && r.hasLongFlag && ln = r.getLongFlag)
              || (sn ≠ nulChar && r.hasShortFlag && sn = r.getShortFlag) then
            r.parseNextArg
          else r
        match groupLoop fuel ms r with
        | none => none
        | some (ok, ms', r') => some (ok, .grp ln sn ms', r')

/-- The dispatch loop of `FlagGroup::parseArgsR`: look the current token
up in the long- or short-name index, stop with success on a miss or an
at-capacity member, delegate otherwise; only the long-flag branch checks
for cursor progress after a successful delegation. -/
def groupLoop : Nat → List FlagNode → Reader → Option (Bool × List FlagNode × Reader)
  | 0, _, _ => none
  | fuel + 1, ms, r =>
    if r.atEnd then some (true, ms, r)
    else if r.hasLongFlag then
      match lookupLongIdx ms r.getLongFlag with
      | none => some (true, ms, r)
      | some i =>
        let m := getMember ms i
        if m.atCapacity then some (true, ms, r)
        else
          let pos := r.tell
          match parseArgsR fuel m r with
          | none => none
          | some (false, m', r') => some (false, ms.set i m', r')
          | some (true, m', r') =>
            if r'.tell = pos then some (true, ms.set i m', r')
            else groupLoop fuel (ms.set i m') r'
    else
      match lookupShortIdx ms r.getShortFlag with
      | none => some (true, ms, r)
      | some i =>
        let m := getMember ms i
        if m.atCapacity then some (true, ms, r)
        else
          match parseArgsR fuel m r with
          | none => none
          | some (false, m', r') => some (false, ms.set i m', r')
          | some (true, m', r') => groupLoop fuel (ms.set i m') r'

end

/-- `FlagBase::parseArgs`: return true at once when `argc < 2`;
otherwise tokenize, run the node, and demand the reader be drained.
The result pairs the C++ boolean with the final node state; `none`
means the fuel ran out. -/
def parseArgs (fuel : Nat) (argc : Int) (argv : List String) (n : FlagNode) :
    Option (Bool × FlagNode) :=
  if argc < 2 then some (true, n)
  else
    match parseArgsR fuel n ((mkReader argc argv).parseNextArg) with
    | none => none
    | some (false, n', _) => some (false, n')
    | some (true, n', r') => some (if r'.atEnd then true else false, n')

/-! ## Observation helpers -/

/-- The recorded occurrences of a vector flag. -/
def FlagNode.vecValues : FlagNode → List FlagNode
  | .vec _ _ _ _ _ _ vs => vs
  | _ => []

/-- The integer held by a primitive flag node, if any. -/
def FlagNode.primInt : FlagNode → Option Int
  | .prim _ _ _ _ (.vInt i) => some i
  | _ => none

/-- The integer elements collected by a `VectorFlag` over an integer
type. -/
def FlagNode.vecIntVals (n : FlagNode) : List Int :=
  n.vecValues.filterMap FlagNode.primInt

/-- The `weights` run held by one `RepeatableGroup` occurrence. -/
def groupWeights : FlagNode → List Int
  | .grp _ _ [w] => w.vecIntVals
  | _ => []

/-- All `weights` sub-sequences of the Test2-shaped flag tree, one per
recorded `lists` occurrence. -/
def listsSubSequences : FlagNode → List (List Int)
  | .grp _ _ [_, lists] => lists.vecValues.map groupWeights
  | _ => []

/-- The `param` value of the Test2-shaped flag tree. -/
def paramOf : FlagNode → Option Int
  | .grp _ _ (p :: _) => p.primInt
  | _ => none

/-! ## Concrete flag trees from the repository's tests and example

`test2Group` is the `Test2::MyFlagGroup` of the test file: an `int64`
`param` and `Flag<vector<RepeatableGroup>> lists`, where each
`RepeatableGroup` holds `Flag<Sequential<int>> weights`. The `lists`
element template carries the vector's own names because `newFlag()`
constructs it from `getCtorArgs`. -/

def weightsVec : FlagNode :=
  .vec "weights" nulChar true false false
    (.prim "weights" nulChar .pI32 false (.vInt 0)) []

def listsTemplate : FlagNode := .grp "lists" nulChar [weightsVec]

def listsVec : FlagNode := .vec "lists" nulChar true true false listsTemplate []

def test2Group : FlagNode :=
  .grp "" nulChar [.prim "param" nulChar .pI64 false (.vInt 0), listsVec]

/-- The full argument list of `TEST(FlagsTest, SequentialFlagsCannotBeReentered)`. -/
def test2Argv : List String :=
  ["flagstext.exe", "--lists", "--weights", "1", "2", "3", "--weights", "4", "5", "6",
   "--weights", "7", "8", "9", "--param", "1336", "--lists",
   "--weights", "10", "11", "12", "--weights", "13", "14", "15"]

/-- A `weights` occurrence holding the given run of integers. -/
def weightsWith (xs : List Int) : FlagNode :=
  .vec "weights" nulChar true false true
    (.prim "weights" nulChar .pI32 false (.vInt 0))
    (xs.map fun i => .prim "weights" nulChar .pI32 true (.vInt i))

/-- A recorded `lists` occurrence holding one `weights` run. -/
def listsEntry (xs : List Int) : FlagNode := .grp "lists" nulChar [weightsWith xs]

/-- The Test2-shaped tree with the given `param` and `weights` runs. -/
def test2Result (param : Int) (runs : List (List Int)) : FlagNode :=
  .grp "" nulChar
    [.prim "param" nulChar .pI64 true (.vInt param),
     .vec "lists" nulChar true true true listsTemplate (runs.map listsEntry)]

set_option maxRecDepth 8000
set_option maxHeartbeats 2000000

/-- The model reproduces the repository's own regression test: the full
Test2 input yields five `weights` sub-sequences `1..15` in order and
`param == 1336`. -/
theorem test2Regression :
    parseArgs 200 25 test2Argv test2Group =
      some (true, test2Result 1336
        [[1, 2, 3], [4, 5, 6], [7, 8, 9], [10, 11, 12], [13, 14, 15]]) := by
  decide

/-! ## Claim C4: the multi-group nesting scenario -/

/-- The argument list quoted by the claim (claim C4 / spec Scenario C):
a prefix of the Test2 regression input. -/
def c4Argv : List String :=
  ["prog", "--lists", "--weights", "1", "2", "3", "--weights", "4", "5", "6",
   "--param", "1336", "--lists", "--weights", "10", "11", "12"]

/-- Claim C4 as stated: parsing the quoted list succeeds with five
separate `weights` sub-sequences in total. -/
def c4prop : Prop :=
  ∀ (fuel : Nat) (g : FlagNode),
    parseArgs fuel 17 c4Argv test2Group = some (true, g) →
    (listsSubSequences g).length = 5

/-- The actual parse result of the claim C4 input: three `weights`
sub-sequences, not five. -/
def c4Result : FlagNode :=
  test2Result 1336 [[1, 2, 3], [4, 5, 6], [10, 11, 12]]

/-- Claim C4 is false on the code: the quoted seventeen-token input has
only three `--weights` runs, and the parse records exactly three
sub-sequences. -/
theorem c4_counterexample : ¬ c4prop := by
  intro h
  have h3 := h 100 c4Result (by decide)
  revert h3
  decide

/-- Claim C4, amended: the quoted input parses successfully into THREE
separate `weights` sub-sequences `[1,2,3]`, `[4,5,6]`, `[10,11,12]` with
`param == 1336`; the re-invocation `--weights 4 5 6` inside the first
`--lists` occurrence starts a new sibling `lists` instance rather than
extending the earlier `weights` sequence (three `lists` instances in
total, each holding one run). -/
theorem c4_amended :
    parseArgs 100 17 c4Argv test2Group = some (true, c4Result) ∧
    listsSubSequences c4Result = [[1, 2, 3], [4, 5, 6], [10, 11, 12]] ∧
    paramOf c4Result = some 1336 := by
  decide

/-! ## Claim C5: Scenario A (`--alive=true --param 20 --ind=10 --ind 11`) -/

/-- The boolean held by a primitive flag node, if any. -/
def FlagNode.primBoolVal : FlagNode → Option Bool
  | .prim _ _ _ _ (.vBool b) => some b
  | _ => none

/-- Member access in a group-shaped flag tree. -/
def memberAt (n : FlagNode) (i : Nat) : FlagNode :=
  match n with
  | .grp _ _ ms => ms.getD i (.grp "" nulChar [])
  | other => other

/-- The unconstrained `vector<int>` flag `ind` of Scenario A. -/
def indVec : FlagNode :=
  .vec "ind" nulChar true true false (.prim "ind" nulChar .pI32 false (.vInt 0)) []

/-- The Scenario A group: bool singleton `alive`, `int64` `param`,
unconstrained vector `ind`. -/
def c5Group : FlagNode :=
  .grp "" nulChar
    [.prim "alive" nulChar .pBool false (.vBool false),
     .prim "param" nulChar .pI64 false (.vInt 0), indVec]

def c5Argv : List String :=
  ["prog", "--alive=true", "--param", "20", "--ind=10", "--ind", "11"]

/-- The parse result of Scenario A. -/
def c5Result : FlagNode :=
  .grp "" nulChar
    [.prim "alive" nulChar .pBool true (.vBool true),
     .prim "param" nulChar .pI64 true (.vInt 20),
     .vec "ind" nulChar true true true (.prim "ind" nulChar .pI32 false (.vInt 0))
       [.prim "ind" nulChar .pI32 true (.vInt 10),
        .prim "ind" nulChar .pI32 true (.vInt 11)]]

/-- Claim C5: Scenario A succeeds with `alive == true`, `param == 20`
and `ind == [10, 11]`, in that order. -/
theorem c5_scenarioA :
    parseArgs 100 7 c5Argv c5Group = some (true, c5Result) ∧
    (memberAt c5Result 0).primBoolVal = some true ∧
    (memberAt c5Result 1).primInt = some 20 ∧
    (memberAt c5Result 2).vecIntVals = [10, 11] := by
  decide

/-! ## Claim C3: short-flag clusters (`-pb` versus `-p -b`, and `-bp 10`) -/

/-- The `bookmark` flag of the README example: `Flag<vector<int>>` with
long name `bookmark` and short name `b`. -/
def bookVec : FlagNode :=
  .vec "bookmark" 'b' true true false
    (.prim "bookmark" 'b' .pI32 false (.vInt 0)) []

/-- The README example sub-group relevant to claim C3: switch `-p` and
vector `-b`. -/
def c3Group : FlagNode := .grp "" nulChar [.sw "" 'p' false, bookVec]

/-- The state the code actually produces for `-bp 10`: `p` is set AND
`bookmark == [10]`. -/
def c3ResultBp : FlagNode :=
  .grp "" nulChar
    [.sw "" 'p' true,
     .vec "bookmark" 'b' true true true (.prim "bookmark" 'b' .pI32 false (.vInt 0))
       [.prim "bookmark" 'b' .pI32 true (.vInt 10)]]

/-- Code behaviour around claim C3. The first conjunct confirms the
stacking equivalence `-pb 10` versus `-p -b 10`. The remaining conjuncts
evaluate the code at the failing input `["prog", "-bp", "10"]`: the
parse SUCCEEDS, the value `10` IS delivered to the mid-cluster flag `b`
(`bookmark == [10]`), and `p` is set — `nextRawArgument` pulls the next
raw argument even while stacked short flags are still queued, so the
"only the trailing character of a cluster may receive the following
value" rule documented in the README does not hold in the code. -/
theorem c3_code_behavior :
    parseArgs 100 3 ["prog", "-pb", "10"] c3Group =
      parseArgs 100 4 ["prog", "-p", "-b", "10"] c3Group ∧
    parseArgs 100 3 ["prog", "-bp", "10"] c3Group = some (true, c3ResultBp) ∧
    (memberAt c3ResultBp 1).vecIntVals = [10] := by
  decide

/-! ## Claim C1: the greedy re-invocation condition of vector flags -/

/-- "The next token is a flag whose name matches this node's own long or
short name" — the re-invocation condition asserted by claim C1. -/
def ownNameToken (r : Reader) (ln : String) (sn : Char) : Bool :=
  (r.hasShortFlag && decide (r.getShortFlag = sn)) ||
  (r.hasLongFlag && decide (r.getLongFlag = ln))

/-- `canReenter`, restated with the reentrancy test pulled out front. -/
theorem canReenter_eq (r : Reader) (re : Bool) (flag : FlagNode) :
    canReenter r re flag =
      (re && (if r.hasShortFlag then FlagNode.hasFlagC r.getShortFlag flag
              else FlagNode.hasFlagL r.getLongFlag flag)) := by
  cases re <;> simp [canReenter]

/-- Claim C1 as stated: for a greedy vector node (whose element template
carries the node's own names, as `newFlag()` guarantees), after a
successful delegation that moved the cursor, consume re-invokes itself
exactly when the next token is no flag at all, or is a flag matching the
node's OWN name with the node reentrant; otherwise it stops with the
appended value. -/
def c1prop : Prop :=
  ∀ (fuel : Nat) (ln : String) (sn : Char) (reentrant ent : Bool)
    (tmpl flag : FlagNode) (vals : List FlagNode) (r r' : Reader),
    tmpl.longNameOf = ln → tmpl.shortNameOf = sn →
    parseArgsR fuel tmpl r = some (true, flag, r') → r'.tell ≠ r.tell →
    parseArgsR (fuel + 1) (.vec ln sn true reentrant ent tmpl vals) r =
      (if !r'.hasAnyFlag || (reentrant && ownNameToken r' ln sn) then
        parseArgsR fuel (.vec ln sn true reentrant true tmpl (vals ++ [flag])) r'
      else some (true, .vec ln sn true reentrant true tmpl (vals ++ [flag]), r'))

def c1Argv : List String := ["prog", "--lists", "--weights", "1", "--weights", "2"]

/-- The reader of `c1Argv` positioned on the `--lists` token. -/
def c1Reader : Reader := (mkReader 6 c1Argv).parseNextArg

/-- The reader after the first `lists` occurrence has been consumed:
positioned on the second `--weights` token. -/
def c1After : Reader :=
  { argc := 6, argv := c1Argv, key := "weights", flagAbsent := false, position := 4 }

/-- Claim C1 is false on the code: with a group-element vector
(`lists`), a token naming a DESCENDANT of the element parser
(`--weights`, which is neither `lists`'s long nor short name) does
re-invoke consume — `canReenter` asks the element parser's recursive
`hasFlag`, not the node's own names — so the parse appends a second
`lists` instance instead of stopping after one. -/
theorem c1_counterexample : ¬ c1prop := by
  intro h
  have h1 := h 20 "lists" nulChar true false listsTemplate (listsEntry [1]) []
    c1Reader c1After rfl rfl (by decide) (by decide)
  revert h1
  decide

/-- Claim C1, amended: after a successful append, a greedy vector
re-invokes consume exactly when the next token is not a flag at all, or
the node is reentrant and the element parser's recursive `hasFlag`
accepts the token's name (the element parser's own name — which equals
the node's — or the name of any of its descendants). For vectors over
SCALAR element types the original wording is right: the second conjunct
shows the element parser of a scalar vector answers `hasFlag` exactly
for the node's own names, so re-invocation happens only on the node's
own name there. -/
theorem c1_amended :
    (∀ (fuel : Nat) (ln : String) (sn : Char) (reentrant ent : Bool)
      (tmpl flag : FlagNode) (vals : List FlagNode) (r r' : Reader),
      parseArgsR fuel tmpl r = some (true, flag, r') → r'.tell ≠ r.tell →
      parseArgsR (fuel + 1) (.vec ln sn true reentrant ent tmpl vals) r =
        (if !r'.hasAnyFlag ||
            (reentrant &&
              (if r'.hasShortFlag then FlagNode.hasFlagC r'.getShortFlag flag
               else FlagNode.hasFlagL r'.getLongFlag flag)) then
          parseArgsR fuel (.vec ln sn true reentrant true tmpl (vals ++ [flag])) r'
        else some (true, .vec ln sn true reentrant true tmpl (vals ++ [flag]), r'))) ∧
    (∀ (ln : String) (sn : Char) (pt : PrimType) (p : Bool) (v : PValue)
      (reentrant : Bool) (r : Reader),
      vecContinue r reentrant (.prim ln sn pt p v) =
        (!r.hasAnyFlag || (reentrant && ownNameToken r ln sn))) := by
  constructor
  · intro fuel ln sn reentrant ent tmpl flag vals r r' hdeleg hmove
    simp only [parseArgsR, hdeleg]
    rw [if_neg hmove]
    simp only [Bool.true_and, vecContinue, canReenter_eq]
  · intro ln sn pt p v reentrant r
    cases reentrant
    · simp [vecContinue, canReenter, ownNameToken]
    · cases ha : r.flagAbsent
      · cases hc : r.flagIsCharacter
        · simp [vecContinue, canReenter, ownNameToken, Reader.hasShortFlag,
            Reader.hasLongFlag, Reader.hasAnyFlag, Reader.getLongFlag,
            Reader.getShortFlag, ha, hc, FlagNode.hasFlagL, eq_comm]
        · simp [vecContinue, canReenter, ownNameToken, Reader.hasShortFlag,
            Reader.hasLongFlag, Reader.hasAnyFlag, Reader.getLongFlag,
            Reader.getShortFlag, ha, hc, FlagNode.hasFlagC, eq_comm]
      · simp [vecContinue, canReenter, ownNameToken, Reader.hasAnyFlag, ha]

theorem c1_amended_witness :
    (parseArgsR 21 (.vec "lists" nulChar true true false listsTemplate []) c1Reader =
      (if !c1After.hasAnyFlag ||
          (true && (if c1After.hasShortFlag then
                      FlagNode.hasFlagC c1After.getShortFlag (listsEntry [1])
                    else FlagNode.hasFlagL c1After.getLongFlag (listsEntry [1]))) then
        parseArgsR 20
          (.vec "lists" nulChar true true true listsTemplate [listsEntry [1]]) c1After
      else some (true,
        .vec "lists" nulChar true true true listsTemplate [listsEntry [1]], c1After))) ∧
    vecContinue c1Reader true (.prim "lists" nulChar .pI32 false (.vInt 0)) =
      (!c1Reader.hasAnyFlag || (true && ownNameToken c1Reader "lists" nulChar)) :=
  ⟨c1_amended.1 20 "lists" nulChar true false listsTemplate (listsEntry [1]) []
      c1Reader c1After (by decide) (by decide),
    c1_amended.2 "lists" nulChar .pI32 false (.vInt 0) true c1Reader⟩

/-! ## Claim C6: `atCapacity` of vector flags is a one-way latch -/

/-- Every successful-or-failing completed `consume` on a vector node
leaves `entered = true` and changes nothing else of the node's
configuration: `parseArgsR` sets `entered` first thing and no code path
resets it. -/
theorem vecEnteredAfter : ∀ (fuel : Nat) (ln : String) (sn : Char)
    (g re ent : Bool) (tmpl : FlagNode) (vals : List FlagNode) (r : Reader)
    (res : Bool × FlagNode × Reader),
    parseArgsR fuel (.vec ln sn g re ent tmpl vals) r = some res →
    ∃ vals', res.2.1 = .vec ln sn g re true tmpl vals'
  | 0, ln, sn, g, re, ent, tmpl, vals, r, res, h => by
    simp [parseArgsR] at h
  | fuel + 1, ln, sn, g, re, ent, tmpl, vals, r, res, h => by
    simp only [parseArgsR] at h
    split at h
    · exact absurd h (by simp)
    · exact ⟨vals, by rw [← Option.some.inj h]⟩
    · split at h
      · exact ⟨vals, by rw [← Option.some.inj h]⟩
      · split at h
        · exact vecEnteredAfter fuel ln sn g re true tmpl _ _ res h
        · exact ⟨vals ++ _, by rw [← Option.some.inj h]⟩

/-- Claim C6: for a vector node, `atCapacity` is exactly
`entered && !reentrant`; any completed consume call leaves the node
entered, so a non-reentrant (`Sequential`) vector reports at capacity
for the remainder of the parse, while a reentrant (unconstrained or
`Repeated`) vector never does. -/
theorem c6_atCapacity_latch : ∀ (fuel : Nat) (ln : String) (sn : Char)
    (g re ent : Bool) (tmpl : FlagNode) (vals : List FlagNode) (r : Reader)
    (res : Bool × FlagNode × Reader),
    parseArgsR fuel (.vec ln sn g re ent tmpl vals) r = some res →
    FlagNode.atCapacity (.vec ln sn g re ent tmpl vals) = (ent && !re) ∧
    FlagNode.atCapacity res.2.1 = !re ∧
    (re = true → FlagNode.atCapacity res.2.1 = false) ∧
    (re = false → FlagNode.atCapacity res.2.1 = true) := by
  intro fuel ln sn g re ent tmpl vals r res h
  obtain ⟨vals', hv⟩ := vecEnteredAfter fuel ln sn g re ent tmpl vals r res h
  refine ⟨rfl, ?_, ?_, ?_⟩ <;> rw [hv] <;> cases re <;> simp [FlagNode.atCapacity]

/-- The reader of `["p", "--weights", "1"]` positioned on `--weights`. -/
def c6Reader : Reader := (mkReader 3 ["p", "--weights", "1"]).parseNextArg

/-- The drained reader after `--weights 1` has been consumed. -/
def c6After : Reader :=
  { argc := 3, argv := ["p", "--weights", "1"], flagAbsent := false,
    clearedOut := true, position := 3 }

theorem c6_witness :
    FlagNode.atCapacity (weightsWith [1]) = true ∧
    FlagNode.atCapacity weightsVec = false := by
  have h := c6_atCapacity_latch 10 "weights" nulChar true false false
    (.prim "weights" nulChar .pI32 false (.vInt 0)) [] c6Reader
    (true, weightsWith [1], c6After) (by decide)
  exact ⟨by simpa using h.2.2.2 rfl, by decide⟩

/-! ## Claim C8: a switch given an attached value -/

/-- A reader positioned on the token `--toggle=x`. -/
def c8Reader : Reader :=
  { argc := 2, argv := ["prog", "--toggle=x"], key := "toggle", value := "x",
    flagAbsent := false, valueSpecified := true, position := 1 }

/-- Claim C8: whenever the current token carries a value, `Switch`'s
consume returns false and the node (in particular `present`) is left
untouched; dispatched through a whole parse, the violation makes
`parseArgs` fail with the switch still unset. -/
theorem c8_switch_rejects_value :
    (∀ (fuel : Nat) (ln : String) (sn : Char) (p : Bool) (r : Reader),
      r.hasValue = true →
      parseArgsR (fuel + 1) (.sw ln sn p) r = some (false, .sw ln sn p, r)) ∧
    parseArgs 10 2 ["prog", "--toggle=x"] (.grp "" nulChar [.sw "toggle" nulChar false]) =
      some (false, .grp "" nulChar [.sw "toggle" nulChar false]) := by
  constructor
  · intro fuel ln sn p r h
    simp [parseArgsR, h]
  · decide

theorem c8_witness :
    parseArgsR 5 (.sw "toggle" nulChar false) c8Reader =
      some (false, .sw "toggle" nulChar false, c8Reader) :=
  c8_switch_rejects_value.1 4 "toggle" nulChar false c8Reader rfl

/-! ## Claim C10: `parseArgs` with fewer than two arguments -/

/-- Claim C10: for any `argc < 2` (zero and negative included),
`parseArgs` returns true at once and the flag tree is returned exactly
as given — no field of any node changes. -/
theorem c10_argcLt2_noop :
    ∀ (fuel : Nat) (argc : Int) (argv : List String) (n : FlagNode),
      argc < 2 → parseArgs fuel argc argv n = some (true, n) := by
  intro fuel argc argv n h
  simp [parseArgs, h]

theorem c10_witness :
    parseArgs 0 (-5) ["x", "y", "z"] c5Group = some (true, c5Group) ∧
    parseArgs 3 1 ["prog"] test2Group = some (true, test2Group) ∧
    parseArgs 7 0 [] c3Group = some (true, c3Group) :=
  ⟨c10_argcLt2_noop 0 (-5) ["x", "y", "z"] c5Group (by norm_num),
   c10_argcLt2_noop 3 1 ["prog"] test2Group (by norm_num),
   c10_argcLt2_noop 7 0 [] c3Group (by norm_num)⟩

/-! ## Claim C2: the no-progress check of the group dispatch loop -/

/-- A short flag active makes the long-flag view false. -/
theorem hasLongFlag_false_of_hasShort (r : Reader) (h : r.hasShortFlag = true) :
    r.hasLongFlag = false := by
  simp only [Reader.hasShortFlag, Bool.and_eq_true, Bool.not_eq_true'] at h
  simp [Reader.hasLongFlag, h.1, h.2]

/-- Claim C2 as stated: in the dispatch loop, for long-flag AND
short-flag tokens alike, a delegation that returns true without moving
the cursor makes the group stop and return success. -/
def c2prop : Prop :=
  (∀ (fuel : Nat) (ms : List FlagNode) (r : Reader) (i : Nat)
     (m' : FlagNode) (r' : Reader),
     r.atEnd = false → r.hasLongFlag = true →
     lookupLongIdx ms r.getLongFlag = some i →
     (getMember ms i).atCapacity = false →
     parseArgsR fuel (getMember ms i) r = some (true, m', r') →
     r'.tell = r.tell →
     groupLoop (fuel + 1) ms r = some (true, ms.set i m', r')) ∧
  (∀ (fuel : Nat) (ms : List FlagNode) (r : Reader) (i : Nat)
     (m' : FlagNode) (r' : Reader),
     r.atEnd = false → r.hasShortFlag = true →
     lookupShortIdx ms r.getShortFlag = some i →
     (getMember ms i).atCapacity = false →
     parseArgsR fuel (getMember ms i) r = some (true, m', r') →
     r'.tell = r.tell →
     groupLoop (fuel + 1) ms r = some (true, ms.set i m', r'))

/-- A reentrant vector, already entered, registered under short name
`v`, whose element parser is a `FlagGroup` that did not take over the
constructor names (a user-defined subclass may drop them): consuming the
short token `v` returns true without touching the reader. -/
def c2Vec : FlagNode := .vec "" 'v' true true true (.grp "" nulChar []) []

/-- A reader whose current token is the short flag `v` of `["p", "-v"]`. -/
def c2Reader : Reader :=
  { argc := 2, argv := ["p", "-v"], charKey := 'v', flagAbsent := false,
    flagIsCharacter := true, position := 1 }

/-- On the state above the dispatch loop never terminates: the short
branch re-delegates the same token to the same member forever, so every
finite fuel runs out. -/
theorem c2loop_diverges : (fuel : Nat) → groupLoop fuel [c2Vec] c2Reader = none
  | 0 => rfl
  | 1 => rfl
  | 2 => rfl
  | 3 => rfl
  | n + 4 => by
    have step : groupLoop (n + 4) [c2Vec] c2Reader = groupLoop (n + 3) [c2Vec] c2Reader :=
      rfl
    rw [step]
    exact c2loop_diverges (n + 3)

/-- Claim C2 is false on the code: the no-progress check exists only in
the long-flag branch. In the short-flag branch a delegation returning
true with `tell()` unchanged makes the loop run again on the very same
state: with the gadget above the loop diverges instead of returning
success. -/
theorem c2_counterexample : ¬ c2prop := by
  intro h
  have hs := h.2 3 [c2Vec] c2Reader 0 c2Vec c2Reader rfl rfl rfl rfl (by decide) rfl
  rw [c2loop_diverges 4] at hs
  exact Option.noConfusion hs

/-- Claim C2, amended: after a true delegation the group stops with
success when the token was a LONG flag and the cursor did not move; for
a SHORT flag token there is no progress check — the loop simply runs
again on the resulting state. -/
theorem c2_amended :
    ∀ (fuel : Nat) (ms : List FlagNode) (r : Reader) (i : Nat)
      (m' : FlagNode) (r' : Reader),
      r.atEnd = false →
      (getMember ms i).atCapacity = false →
      parseArgsR fuel (getMember ms i) r = some (true, m', r') →
      ((r.hasLongFlag = true → lookupLongIdx ms r.getLongFlag = some i →
          r'.tell = r.tell →
          groupLoop (fuel + 1) ms r = some (true, ms.set i m', r')) ∧
       (r.hasShortFlag = true → lookupShortIdx ms r.getShortFlag = some i →
          groupLoop (fuel + 1) ms r = groupLoop fuel (ms.set i m') r')) := by
  intro fuel ms r i m' r' hend hcap hdel
  constructor
  · intro hl hidx hstay
    simp only [groupLoop, hend, hl, hidx, hcap, hdel, hstay]
    simp [Reader.atEnd] at hend
    simp [hend, hstay]
  · intro hs hidx
    have hl := hasLongFlag_false_of_hasShort r hs
    simp only [groupLoop, hend, hl, hidx, hcap, hdel]
    simp [Reader.atEnd] at hend
    simp [hend]

theorem c2_amended_witness :
    groupLoop 4 [c2Vec] c2Reader = groupLoop 3 ([c2Vec].set 0 c2Vec) c2Reader :=
  (c2_amended 3 [c2Vec] c2Reader 0 c2Vec c2Reader rfl rfl (by decide)).2 rfl rfl

/-! ## Claim C7: `hasFlag` versus name ownership -/

/-- Claim C7 (a direct consequence of it): every node that itself
carries a long name answers `hasFlag` for that name. -/
def c7prop : Prop :=
  ∀ (n : FlagNode) (name : String),
    n.longNameOf = name → name ≠ "" → FlagNode.hasFlagL name n = true

/-- Claim C7 is false on the code: `FlagGroup::hasFlag` searches only
the members and never compares the group's own name, so the named group
`listsTemplate` (long name `lists`, sole member named `weights`) denies
its own name. -/
theorem c7_counterexample : ¬ c7prop := by
  intro h
  have hx := h listsTemplate "lists" rfl (by decide)
  revert hx
  decide

/-- The names a node actually owns, per the amended claim: a primitive,
switch or vector node owns its own long name; a vector additionally owns
whatever its element parser (the fresh `newFlag()` instance) owns; a
group owns only what its members own — not its own name. -/
inductive OwnsLong (name : String) : FlagNode → Prop where
  | primOwn (sn : Char) (pt : PrimType) (p : Bool) (v : PValue) :
      OwnsLong name (.prim name sn pt p v)
  | swOwn (sn : Char) (p : Bool) : OwnsLong name (.sw name sn p)
  | vecOwn (sn : Char) (g re e : Bool) (tmpl : FlagNode) (vs : List FlagNode) :
      OwnsLong name (.vec name sn g re e tmpl vs)
  | vecElem (ln : String) (sn : Char) (g re e : Bool) (tmpl : FlagNode)
      (vs : List FlagNode) : OwnsLong name tmpl →
      OwnsLong name (.vec ln sn g re e tmpl vs)
  | grpMember (ln : String) (sn : Char) (ms : List FlagNode) (m : FlagNode) :
      m ∈ ms → OwnsLong name m → OwnsLong name (.grp ln sn ms)

/-- Short-name ownership, mirroring `OwnsLong`. -/
inductive OwnsShort (name : Char) : FlagNode → Prop where
  | primOwn (ln : String) (pt : PrimType) (p : Bool) (v : PValue) :
      OwnsShort name (.prim ln name pt p v)
  | swOwn (ln : String) (p : Bool) : OwnsShort name (.sw ln name p)
  | vecOwn (ln : String) (g re e : Bool) (tmpl : FlagNode) (vs : List FlagNode) :
      OwnsShort name (.vec ln name g re e tmpl vs)
  | vecElem (ln : String) (sn : Char) (g re e : Bool) (tmpl : FlagNode)
      (vs : List FlagNode) : OwnsShort name tmpl →
      OwnsShort name (.vec ln sn g re e tmpl vs)
  | grpMember (ln : String) (sn : Char) (ms : List FlagNode) (m : FlagNode) :
      m ∈ ms → OwnsShort name m → OwnsShort name (.grp ln sn ms)

mutual

theorem hasFlagL_iff_owns : ∀ (name : String) (n : FlagNode),
    FlagNode.hasFlagL name n = true ↔ OwnsLong name n
  | name, .prim ln sn pt p v => by
    constructor
    · intro h
      simp only [FlagNode.hasFlagL, decide_eq_true_eq] at h
      subst h
      exact .primOwn sn pt p v
    · intro h
      cases h
      simp [FlagNode.hasFlagL]
  | name, .sw ln sn p => by
    constructor
    · intro h
      simp only [FlagNode.hasFlagL, decide_eq_true_eq] at h
      subst h
      exact .swOwn sn p
    · intro h
      cases h
      simp [FlagNode.hasFlagL]
  | name, .vec ln sn g re e tmpl vs => by
    rw [FlagNode.hasFlagL]
    simp only [Bool.or_eq_true, decide_eq_true_eq, hasFlagL_iff_owns name tmpl]
    constructor
    · rintro (h | h)
      · subst h; exact .vecOwn sn g re e tmpl vs
      · exact .vecElem ln sn g re e tmpl vs h
    · intro h
      cases h with
      | vecOwn => exact Or.inl rfl
      | vecElem _ _ _ _ _ _ _ ho => exact Or.inr ho
  | name, .grp ln sn ms => by
    rw [FlagNode.hasFlagL]
    rw [hasFlagLs_iff_owns name ms]
    constructor
    · rintro ⟨m, hm, ho⟩
      exact .grpMember ln sn ms m hm ho
    · intro h
      cases h with
      | grpMember _ _ _ m hm ho => exact ⟨m, hm, ho⟩

theorem hasFlagLs_iff_owns : ∀ (name : String) (ms : List FlagNode),
    hasFlagLs name ms = true ↔ ∃ m ∈ ms, OwnsLong name m
  | name, [] => by simp [hasFlagLs]
  | name, m :: ms => by
    rw [hasFlagLs]
    simp only [Bool.or_eq_true, hasFlagL_iff_owns name m, hasFlagLs_iff_owns name ms]
    simp [List.mem_cons, or_and_right, exists_or]

end

mutual

theorem hasFlagC_iff_owns : ∀ (name : Char) (n : FlagNode),
    FlagNode.hasFlagC name n = true ↔ OwnsShort name n
  | name, .prim ln sn pt p v => by
    constructor
    · intro h
      simp only [FlagNode.hasFlagC, decide_eq_true_eq] at h
      subst h
      exact .primOwn ln pt p v
    · intro h
      cases h
      simp [FlagNode.hasFlagC]
  | name, .sw ln sn p => by
    constructor
    · intro h
      simp only [FlagNode.hasFlagC, decide_eq_true_eq] at h
      subst h
      exact .swOwn ln p
    · intro h
      cases h
      simp [FlagNode.hasFlagC]
  | name, .vec ln sn g re e tmpl vs => by
    rw [FlagNode.hasFlagC]
    simp only [Bool.or_eq_true, decide_eq_true_eq, hasFlagC_iff_owns name tmpl]
    constructor
    · rintro (h | h)
      · subst h; exact .vecOwn ln g re e tmpl vs
      · exact .vecElem ln sn g re e tmpl vs h
    · intro h
      cases h with
      | vecOwn => exact Or.inl rfl
      | vecElem _ _ _ _ _ _ _ ho => exact Or.inr ho
  | name, .grp ln sn ms => by
    rw [FlagNode.hasFlagC]
    rw [hasFlagCs_iff_owns name ms]
    constructor
    · rintro ⟨m, hm, ho⟩
      exact .grpMember ln sn ms m hm ho
    · intro h
      cases h with
      | grpMember _ _ _ m hm ho => exact ⟨m, hm, ho⟩

theorem hasFlagCs_iff_owns : ∀ (name : Char) (ms : List FlagNode),
    hasFlagCs name ms = true ↔ ∃ m ∈ ms, OwnsShort name m
  | name, [] => by simp [hasFlagCs]
  | name, m :: ms => by
    rw [hasFlagCs]
    simp only [Bool.or_eq_true, hasFlagC_iff_owns name m, hasFlagCs_iff_owns name ms]
    simp [List.mem_cons, or_and_right, exists_or]

end

/-- Claim C7, amended: `hasFlag` answers true exactly for the names the
node OWNS — its own long/short name for primitive, switch and vector
nodes, plus (recursively) the element parser's names for a vector, and
the members' owned names for a group. A `FlagGroup`'s own name is never
consulted: only its members are searched. -/
theorem c7_amended :
    (∀ (name : String) (n : FlagNode),
      FlagNode.hasFlagL name n = true ↔ OwnsLong name n) ∧
    (∀ (name : Char) (n : FlagNode),
      FlagNode.hasFlagC name n = true ↔ OwnsShort name n) ∧
    (∀ (ln : String) (sn : Char) (ms : List FlagNode) (name : String),
      FlagNode.hasFlagL name (.grp ln sn ms) = hasFlagLs name ms) :=
  ⟨hasFlagL_iff_owns, hasFlagC_iff_owns, fun _ _ _ _ => rfl⟩

/-! ## Claim C9: `--name=value` versus `--name value`

The two argument lists differ only in how the value is attached, so
after the flag's consume the two readers hold the same current token and
the same remaining arguments, merely at different absolute positions.
`SimR` captures that alignment; the engine is insensitive to it. -/

/-- Two readers are aligned: identical token state and queue, equally
many raw arguments left, and the same raw arguments ahead of the
cursor. -/
structure SimR (r₁ r₂ : Reader) : Prop where
  hCharKey : r₁.charKey = r₂.charKey
  hKey : r₁.key = r₂.key
  hValue : r₁.value = r₂.value
  hAbsent : r₁.flagAbsent = r₂.flagAbsent
  hIsChar : r₁.flagIsCharacter = r₂.flagIsCharacter
  hSpec : r₁.valueSpecified = r₂.valueSpecified
  hCleared : r₁.clearedOut = r₂.clearedOut
  hQueue : r₁.charFlags = r₂.charFlags
  hRemaining : r₁.argc - r₁.position = r₂.argc - r₂.position
  hSuffix : r₁.argv.drop (r₁.position + 1) = r₂.argv.drop (r₂.position + 1)

/-- One engine step on two aligned readers: the results are aligned, the
cursors never moved backwards, and they advanced by the same amount. -/
structure StepSim (r₁ r₂ r₁' r₂' : Reader) : Prop where
  sim : SimR r₁' r₂'
  mono₁ : r₁.position ≤ r₁'.position
  mono₂ : r₂.position ≤ r₂'.position
  delta : r₁'.position - r₁.position = r₂'.position - r₂.position

theorem StepSim.refl (r₁ r₂ : Reader) (h : SimR r₁ r₂) : StepSim r₁ r₂ r₁ r₂ :=
  ⟨h, Nat.le_refl _, Nat.le_refl _, by omega⟩

theorem StepSim.comp {r₁ r₂ a₁ a₂ b₁ b₂ : Reader}
    (h1 : StepSim r₁ r₂ a₁ a₂) (h2 : StepSim a₁ a₂ b₁ b₂) : StepSim r₁ r₂ b₁ b₂ :=
  ⟨h2.sim, Nat.le_trans h1.mono₁ h2.mono₁, Nat.le_trans h1.mono₂ h2.mono₂, by
    have d1 := h1.delta
    have d2 := h2.delta
    have m11 := h1.mono₁
    have m12 := h1.mono₂
    have m21 := h2.mono₁
    have m22 := h2.mono₂
    omega⟩

/-- Aligned steps agree on whether the cursor moved. -/
theorem StepSim.tell_iff {r₁ r₂ r₁' r₂' : Reader} (h : StepSim r₁ r₂ r₁' r₂') :
    (r₁'.tell = r₁.tell) ↔ (r₂'.tell = r₂.tell) := by
  have d := h.delta
  have m1 := h.mono₁
  have m2 := h.mono₂
  simp only [Reader.tell]
  omega

theorem SimR.hasValue_eq {r₁ r₂ : Reader} (h : SimR r₁ r₂) :
    r₁.hasValue = r₂.hasValue := h.hSpec

theorem SimR.getValue_eq {r₁ r₂ : Reader} (h : SimR r₁ r₂) :
    r₁.getValue = r₂.getValue := h.hValue

theorem SimR.hasAnyFlag_eq {r₁ r₂ : Reader} (h : SimR r₁ r₂) :
    r₁.hasAnyFlag = r₂.hasAnyFlag := by
  simp [Reader.hasAnyFlag, h.hAbsent]

theorem SimR.hasLongFlag_eq {r₁ r₂ : Reader} (h : SimR r₁ r₂) :
    r₁.hasLongFlag = r₂.hasLongFlag := by
  simp [Reader.hasLongFlag, h.hAbsent, h.hIsChar]

theorem SimR.hasShortFlag_eq {r₁ r₂ : Reader} (h : SimR r₁ r₂) :
    r₁.hasShortFlag = r₂.hasShortFlag := by
  simp [Reader.hasShortFlag, h.hAbsent, h.hIsChar]

theorem SimR.atEnd_eq {r₁ r₂ : Reader} (h : SimR r₁ r₂) :
    r₁.atEnd = r₂.atEnd := h.hCleared

theorem SimR.getLongFlag_eq {r₁ r₂ : Reader} (h : SimR r₁ r₂) :
    r₁.getLongFlag = r₂.getLongFlag := h.hKey

theorem SimR.getShortFlag_eq {r₁ r₂ : Reader} (h : SimR r₁ r₂) :
    r₁.getShortFlag = r₂.getShortFlag := h.hCharKey

theorem SimR.hasMoreArguments_eq {r₁ r₂ : Reader} (h : SimR r₁ r₂) :
    r₁.hasMoreArguments = r₂.hasMoreArguments := by
  have hr := h.hRemaining
  simp only [Reader.hasMoreArguments]
  by_cases h1 : r₁.position < r₁.argc <;> by_cases h2 : r₂.position < r₂.argc <;>
    simp [h1, h2] <;> omega

theorem SimR.vecContinue_eq {r₁ r₂ : Reader} (h : SimR r₁ r₂)
    (re : Bool) (flag : FlagNode) :
    vecContinue r₁ re flag = vecContinue r₂ re flag := by
  simp only [vecContinue, canReenter, h.hasAnyFlag_eq, h.hasShortFlag_eq,
    h.getShortFlag_eq, h.getLongFlag_eq]

/-- The raw argument under the cursor, read through the suffix. -/
theorem getD_eq_headD_drop : ∀ (l : List String) (n : Nat),
    l.getD n "" = (l.drop n).headD ""
  | [], n => by cases n <;> rfl
  | _ :: _, 0 => rfl
  | _ :: l, n + 1 => getD_eq_headD_drop l n

/-- `parseNextArg` keeps aligned readers aligned. The `key` hypothesis
is needed only when a stacked short flag is pending (that branch keeps
the stale `key`). -/
theorem parseNextArg_stepSim (r₁ r₂ : Reader)
    (hq : r₁.charFlags = r₂.charFlags)
    (hkey : r₁.charFlags ≠ [] → r₁.key = r₂.key)
    (hclr : r₁.clearedOut = r₂.clearedOut)
    (hrem : r₁.argc - r₁.position = r₂.argc - r₂.position)
    (hsuf : r₁.argv.drop (r₁.position + 1) = r₂.argv.drop (r₂.position + 1)) :
    StepSim r₁ r₂ r₁.parseNextArg r₂.parseNextArg := by
  simp only [Reader.parseNextArg]
  rw [← hq]
  cases hq1 : r₁.charFlags with
  | cons c rest =>
    simp only
    exact ⟨⟨rfl, hkey (by simp [hq1]), rfl, rfl, rfl, rfl, hclr, rfl, hrem, hsuf⟩,
      Nat.le_refl _, Nat.le_refl _, by simp <;> omega⟩
  | nil =>
    simp only
    by_cases h1 : r₁.position ≥ r₁.argc
    · have h2 : r₂.position ≥ r₂.argc := by omega
      rw [if_pos h1, if_pos h2]
      exact ⟨⟨rfl, rfl, rfl, rfl, rfl, rfl, rfl, rfl, hrem, hsuf⟩,
        Nat.le_refl _, Nat.le_refl _, by simp <;> omega⟩
    · have h2 : ¬ r₂.position ≥ r₂.argc := by omega
      rw [if_neg h1, if_neg h2]
      have hsuf2 : r₁.argv.drop (r₁.position + 1 + 1) = r₂.argv.drop (r₂.position + 1 + 1) := by
        rw [← List.drop_drop 1 (r₁.position + 1), ← List.drop_drop 1 (r₂.position + 1), hsuf]
      by_cases h3 : r₁.position + 1 ≥ r₁.argc
      · have h4 : r₂.position + 1 ≥ r₂.argc := by omega
        rw [if_pos h3, if_pos h4]
        exact ⟨⟨rfl, rfl, rfl, rfl, rfl, rfl, rfl, rfl, by simp <;> omega, hsuf2⟩,
          by simp, by simp, by simp <;> omega⟩
      · have h4 : ¬ r₂.position + 1 ≥ r₂.argc := by omega
        rw [if_neg h3, if_neg h4]
        have harg : r₂.argv.getD (r₂.position + 1) "" = r₁.argv.getD (r₁.position + 1) "" := by
          rw [getD_eq_headD_drop, getD_eq_headD_drop, hsuf]
        rw [harg]
        split <;> try split
        all_goals
          exact ⟨⟨rfl, rfl, rfl, rfl, rfl, rfl, hclr, rfl, by simp <;> omega, hsuf2⟩,
            by simp, by simp, by simp <;> omega⟩

/-- `nextRawArgument` on aligned readers: same value pulled, alignment
kept. -/
theorem nextRaw_stepSim (r₁ r₂ : Reader) (h : SimR r₁ r₂) :
    (r₁.nextRawArgument).1 = (r₂.nextRawArgument).1 ∧
    StepSim r₁ r₂ (r₁.nextRawArgument).2 (r₂.nextRawArgument).2 := by
  have hrem := h.hRemaining
  have harg : r₁.argv.getD (r₁.position + 1) "" = r₂.argv.getD (r₂.position + 1) "" := by
    rw [getD_eq_headD_drop, getD_eq_headD_drop, h.hSuffix]
  have hsuf2 : r₁.argv.drop (r₁.position + 1 + 1) = r₂.argv.drop (r₂.position + 1 + 1) := by
    rw [← List.drop_drop 1 (r₁.position + 1), ← List.drop_drop 1 (r₂.position + 1),
      h.hSuffix]
  unfold Reader.nextRawArgument
  exact ⟨harg,
    ⟨⟨h.hCharKey, rfl, harg, rfl, rfl, rfl, h.hCleared, h.hQueue,
      by simp <;> omega, hsuf2⟩, by simp, by simp, by simp <;> omega⟩⟩

mutual

/-- The engine cannot observe absolute positions: on aligned readers
every `parseArgsR` call returns the same boolean and node, with aligned
readers. -/
theorem simParse : ∀ (fuel : Nat) (n : FlagNode) (r₁ r₂ : Reader), SimR r₁ r₂ →
    (parseArgsR fuel n r₁ = none ∧ parseArgsR fuel n r₂ = none) ∨
    (∃ b n' r₁' r₂', parseArgsR fuel n r₁ = some (b, n', r₁') ∧
      parseArgsR fuel n r₂ = some (b, n', r₂') ∧ StepSim r₁ r₂ r₁' r₂')
  | 0, _, _, _, _ => Or.inl ⟨rfl, rfl⟩
  | fuel + 1, .prim ln sn pt pres pv, r₁, r₂, h => by
    simp only [parseArgsR]
    rw [← h.hasValue_eq, ← h.getValue_eq, ← h.hasMoreArguments_eq]
    by_cases hv : r₁.hasValue = true
    · simp only [hv, if_true]
      cases hp : parsePrim pt r₁.getValue with
      | none =>
        simp only [hp]
        exact Or.inr ⟨false, _, r₁, r₂, rfl, rfl, .refl _ _ h⟩
      | some v =>
        simp only [hp]
        exact Or.inr ⟨true, _, _, _, rfl, rfl,
          parseNextArg_stepSim r₁ r₂ h.hQueue (fun _ => h.hKey) h.hCleared
            h.hRemaining h.hSuffix⟩
    · simp only [hv, if_false]
      obtain ⟨hval, hstep⟩ := nextRaw_stepSim r₁ r₂ h
      by_cases hm : r₁.hasMoreArguments = true
      · simp only [hm, if_true]
        rw [← hval]
        cases hp : parsePrim pt (r₁.nextRawArgument).1 with
        | none =>
          simp only [hp]
          exact Or.inr ⟨false, _, _, _, rfl, rfl, hstep⟩
        | some v =>
          simp only [hp]
          refine Or.inr ⟨true, _, _, _, rfl, rfl, hstep.comp ?_⟩
          exact parseNextArg_stepSim _ _ hstep.sim.hQueue (fun _ => hstep.sim.hKey)
            hstep.sim.hCleared hstep.sim.hRemaining hstep.sim.hSuffix
      · simp only [hm, if_false]
        exact Or.inr ⟨false, _, r₁, r₂, rfl, rfl, .refl _ _ h⟩
  | fuel + 1, .sw ln sn pres, r₁, r₂, h => by
    simp only [parseArgsR]
    rw [← h.hasValue_eq]
    by_cases hv : r₁.hasValue = true
    · simp only [hv, if_true]
      exact Or.inr ⟨false, _, r₁, r₂, rfl, rfl, .refl _ _ h⟩
    · simp only [hv, if_false]
      exact Or.inr ⟨true, _, _, _, rfl, rfl,
        parseNextArg_stepSim r₁ r₂ h.hQueue (fun _ => h.hKey) h.hCleared
          h.hRemaining h.hSuffix⟩
  | fuel + 1, .vec ln sn g re ent tmpl vals, r₁, r₂, h => by
    rcases simParse fuel tmpl r₁ r₂ h with ⟨e1, e2⟩ | ⟨b, flag, r₁', r₂', e1, e2, hstep⟩
    · exact Or.inl ⟨by simp [parseArgsR, e1], by simp [parseArgsR, e2]⟩
    · cases b with
      | false =>
        exact Or.inr ⟨false, .vec ln sn g re true tmpl vals, r₁', r₂',
          by simp [parseArgsR, e1], by simp [parseArgsR, e2], hstep⟩
      | true =>
        by_cases ht : r₁'.tell = r₁.tell
        · have ht2 : r₂'.tell = r₂.tell := hstep.tell_iff.mp ht
          exact Or.inr ⟨true, .vec ln sn g re true tmpl vals, r₁', r₂',
            by simp [parseArgsR, e1, ht], by simp [parseArgsR, e2, ht2], hstep⟩
        · have ht2 : ¬ r₂'.tell = r₂.tell := fun hh => ht (hstep.tell_iff.mpr hh)
          have hvc := hstep.sim.vecContinue_eq re flag
          by_cases hg : (g && vecContinue r₁' re flag) = true
          · have hg2 : (g && vecContinue r₂' re flag) = true := by rw [← hvc]; exact hg
            rcases simParse fuel (.vec ln sn g re true tmpl (vals ++ [flag])) r₁' r₂'
                hstep.sim with ⟨f1, f2⟩ | ⟨b2, n2, s₁, s₂, f1, f2, hstep2⟩
            · exact Or.inl ⟨by simp [parseArgsR, e1, ht, hg, f1],
                by simp [parseArgsR, e2, ht2, hg2, f2]⟩
            · exact Or.inr ⟨b2, n2, s₁, s₂,
                by simp [parseArgsR, e1, ht, hg, f1],
                by simp [parseArgsR, e2, ht2, hg2, f2], hstep.comp hstep2⟩
          · have hg2 : ¬ (g && vecContinue r₂' re flag) = true := by rw [← hvc]; exact hg
            exact Or.inr ⟨true, .vec ln sn g re true tmpl (vals ++ [flag]), r₁', r₂',
              by simp [parseArgsR, e1, ht, hg],
              by simp [parseArgsR, e2, ht2, hg2], hstep⟩
  | fuel + 1, .grp ln sn ms, r₁, r₂, h => by
    by_cases hsan : r₁.hasLongFlag = r₁.hasShortFlag
    · have hsan2 : r₂.hasLongFlag = r₂.hasShortFlag := by
        rw [← h.hasLongFlag_eq, ← h.hasShortFlag_eq]; exact hsan
      exact Or.inr ⟨false, .grp ln sn ms, r₁, r₂,
        by simp [parseArgsR, hsan], by simp [parseArgsR, hsan2], .refl _ _ h⟩
    · have hsan2 : ¬ r₂.hasLongFlag = r₂.hasShortFlag := by
        rw [← h.hasLongFlag_eq, ← h.hasShortFlag_eq]; exact hsan
      by_cases hc : ((¬ln = "" ∧ r₁.hasLongFlag = true) ∧ ln = r₁.getLongFlag)
          ∨ ((¬sn = nulChar ∧ r₁.hasShortFlag = true) ∧ sn = r₁.getShortFlag)
      · have hc2 : ((¬ln = "" ∧ r₂.hasLongFlag = true) ∧ ln = r₂.getLongFlag)
            ∨ ((¬sn = nulChar ∧ r₂.hasShortFlag = true) ∧ sn = r₂.getShortFlag) := by
          rw [← h.hasLongFlag_eq, ← h.hasShortFlag_eq, ← h.getLongFlag_eq,
            ← h.getShortFlag_eq]
          exact hc
        have hpn := parseNextArg_stepSim r₁ r₂ h.hQueue (fun _ => h.hKey) h.hCleared
          h.hRemaining h.hSuffix
        rcases simGroup fuel ms r₁.parseNextArg r₂.parseNextArg hpn.sim with
          ⟨f1, f2⟩ | ⟨ok, ms', s₁, s₂, f1, f2, hstep2⟩
        · exact Or.inl ⟨by simp [parseArgsR, hsan, hc, f1],
            by simp [parseArgsR, hsan2, hc2, f2]⟩
        · exact Or.inr ⟨ok, .grp ln sn ms', s₁, s₂,
            by simp [parseArgsR, hsan, hc, f1],
            by simp [parseArgsR, hsan2, hc2, f2], hpn.comp hstep2⟩
      · have hc2 : ¬ (((¬ln = "" ∧ r₂.hasLongFlag = true) ∧ ln = r₂.getLongFlag)
            ∨ ((¬sn = nulChar ∧ r₂.hasShortFlag = true) ∧ sn = r₂.getShortFlag)) := by
          rw [← h.hasLongFlag_eq, ← h.hasShortFlag_eq, ← h.getLongFlag_eq,
            ← h.getShortFlag_eq]
          exact hc
        rcases simGroup fuel ms r₁ r₂ h with
          ⟨f1, f2⟩ | ⟨ok, ms', s₁, s₂, f1, f2, hstep2⟩
        · exact Or.inl ⟨by simp [parseArgsR, hsan, hc, f1],
            by simp [parseArgsR, hsan2, hc2, f2]⟩
        · exact Or.inr ⟨ok, .grp ln sn ms', s₁, s₂,
            by simp [parseArgsR, hsan, hc, f1],
            by simp [parseArgsR, hsan2, hc2, f2], hstep2⟩

/-- `groupLoop` on aligned readers: same verdict, same members, aligned
readers. -/
theorem simGroup : ∀ (fuel : Nat) (ms : List FlagNode) (r₁ r₂ : Reader), SimR r₁ r₂ →
    (groupLoop fuel ms r₁ = none ∧ groupLoop fuel ms r₂ = none) ∨
    (∃ b ms' r₁' r₂', groupLoop fuel ms r₁ = some (b, ms', r₁') ∧
      groupLoop fuel ms r₂ = some (b, ms', r₂') ∧ StepSim r₁ r₂ r₁' r₂')
  | 0, _, _, _, _ => Or.inl ⟨rfl, rfl⟩
  | fuel + 1, ms, r₁, r₂, h => by
    by_cases he : r₁.atEnd = true
    · have he2 : r₂.atEnd = true := by rw [← h.atEnd_eq]; exact he
      exact Or.inr ⟨true, ms, r₁, r₂,
        by simp [groupLoop, he], by simp [groupLoop, he2], .refl _ _ h⟩
    · have he2 : ¬ r₂.atEnd = true := by rw [← h.atEnd_eq]; exact he
      by_cases hlf : r₁.hasLongFlag = true
      · have hlf2 : r₂.hasLongFlag = true := by rw [← h.hasLongFlag_eq]; exact hlf
        cases hidx : lookupLongIdx ms r₁.getLongFlag with
        | none =>
          have hidx2 : lookupLongIdx ms r₂.getLongFlag = none := by
            rw [← h.getLongFlag_eq]; exact hidx
          exact Or.inr ⟨true, ms, r₁, r₂,
            by simp [groupLoop, he, hlf, hidx], by simp [groupLoop, he2, hlf2, hidx2],
            .refl _ _ h⟩
        | some i =>
          have hidx2 : lookupLongIdx ms r₂.getLongFlag = some i := by
            rw [← h.getLongFlag_eq]; exact hidx
          by_cases hcap : (getMember ms i).atCapacity = true
          · exact Or.inr ⟨true, ms, r₁, r₂,
              by simp [groupLoop, he, hlf, hidx, hcap],
              by simp [groupLoop, he2, hlf2, hidx2, hcap], .refl _ _ h⟩
          · rcases simParse fuel (getMember ms i) r₁ r₂ h with
              ⟨f1, f2⟩ | ⟨b, m', s₁, s₂, f1, f2, hstep⟩
            · exact Or.inl ⟨by simp [groupLoop, he, hlf, hidx, hcap, f1],
                by simp [groupLoop, he2, hlf2, hidx2, hcap, f2]⟩
            · cases b with
              | false =>
                exact Or.inr ⟨false, ms.set i m', s₁, s₂,
                  by simp [groupLoop, he, hlf, hidx, hcap, f1],
                  by simp [groupLoop, he2, hlf2, hidx2, hcap, f2], hstep⟩
              | true =>
                by_cases ht : s₁.tell = r₁.tell
                · have ht2 : s₂.tell = r₂.tell := hstep.tell_iff.mp ht
                  exact Or.inr ⟨true, ms.set i m', s₁, s₂,
                    by simp [groupLoop, he, hlf, hidx, hcap, f1, ht],
                    by simp [groupLoop, he2, hlf2, hidx2, hcap, f2, ht2], hstep⟩
                · have ht2 : ¬ s₂.tell = r₂.tell := fun hh => ht (hstep.tell_iff.mpr hh)
                  rcases simGroup fuel (ms.set i m') s₁ s₂ hstep.sim with
                    ⟨f3, f4⟩ | ⟨ok, ms', t₁, t₂, f3, f4, hstep2⟩
                  · exact Or.inl ⟨by simp [groupLoop, he, hlf, hidx, hcap, f1, ht, f3],
                      by simp [groupLoop, he2, hlf2, hidx2, hcap, f2, ht2, f4]⟩
                  · exact Or.inr ⟨ok, ms', t₁, t₂,
                      by simp [groupLoop, he, hlf, hidx, hcap, f1, ht, f3],
                      by simp [groupLoop, he2, hlf2, hidx2, hcap, f2, ht2, f4],
                      hstep.comp hstep2⟩
      · have hlf2 : ¬ r₂.hasLongFlag = true := by rw [← h.hasLongFlag_eq]; exact hlf
        cases hidx : lookupShortIdx ms r₁.getShortFlag with
        | none =>
          have hidx2 : lookupShortIdx ms r₂.getShortFlag = none := by
            rw [← h.getShortFlag_eq]; exact hidx
          exact Or.inr ⟨true, ms, r₁, r₂,
            by simp [groupLoop, he, hlf, hidx], by simp [groupLoop, he2, hlf2, hidx2],
            .refl _ _ h⟩
        | some i =>
          have hidx2 : lookupShortIdx ms r₂.getShortFlag = some i := by
            rw [← h.getShortFlag_eq]; exact hidx
          by_cases hcap : (getMember ms i).atCapacity = true
          · exact Or.inr ⟨true, ms, r₁, r₂,
              by simp [groupLoop, he, hlf, hidx, hcap],
              by simp [groupLoop, he2, hlf2, hidx2, hcap], .refl _ _ h⟩
          · rcases simParse fuel (getMember ms i) r₁ r₂ h with
              ⟨f1, f2⟩ | ⟨b, m', s₁, s₂, f1, f2, hstep⟩
            · exact Or.inl ⟨by simp [groupLoop, he, hlf, hidx, hcap, f1],
                by simp [groupLoop, he2, hlf2, hidx2, hcap, f2]⟩
            · cases b with
              | false =>
                exact Or.inr ⟨false, ms.set i m', s₁, s₂,
                  by simp [groupLoop, he, hlf, hidx, hcap, f1],
                  by simp [groupLoop, he2, hlf2, hidx2, hcap, f2], hstep⟩
              | true =>
                rcases simGroup fuel (ms.set i m') s₁ s₂ hstep.sim with
                  ⟨f3, f4⟩ | ⟨ok, ms', t₁, t₂, f3, f4, hstep2⟩
                · exact Or.inl ⟨by simp [groupLoop, he, hlf, hidx, hcap, f1, f3],
                    by simp [groupLoop, he2, hlf2, hidx2, hcap, f2, f4]⟩
                · exact Or.inr ⟨ok, ms', t₁, t₂,
                    by simp [groupLoop, he, hlf, hidx, hcap, f1, f3],
                    by simp [groupLoop, he2, hlf2, hidx2, hcap, f2, f4],
                    hstep.comp hstep2⟩
end

/-- Position of the `=` separating name from value: the first `=` of
`name=value` when the name itself has none. -/
theorem findIdxSplit : ∀ (l₁ l₂ : List Char), '=' ∉ l₁ →
    List.findIdx? (· = '=') (l₁ ++ '=' :: l₂) = some l₁.length
  | [], l₂, _ => by simp [List.findIdx?_cons]
  | c :: cs, l₂, h => by
    have hc : ¬ c = '=' := fun he => h (he ▸ List.mem_cons_self c cs)
    have hcs : '=' ∉ cs := fun hm => h (List.mem_cons_of_mem c hm)
    rw [List.cons_append, List.findIdx?_cons]
    simp only [hc, decide_eq_true_eq, if_false, List.findIdx?_succ,
      findIdxSplit cs l₂ hcs, List.length_cons]
    rfl

/-- A name without `=` has no split point. -/
theorem findIdxClean (l : List Char) (h : '=' ∉ l) :
    List.findIdx? (· = '=') l = none := by
  rw [List.findIdx?_eq_none_iff]
  intro x hx
  simp only [decide_eq_false_iff_not]
  exact fun hxe => h (hxe ▸ hx)

/-- `parseNextArg` on a `--…` raw argument: long-flag classification,
split at the first `=` when present. -/
theorem parseNextArg_long (r : Reader) (cs : List Char)
    (hq : r.charFlags = [])
    (h1 : ¬ r.position ≥ r.argc) (h2 : ¬ r.position + 1 ≥ r.argc)
    (harg : r.argv.getD (r.position + 1) "" = ⟨'-' :: '-' :: cs⟩) :
    r.parseNextArg = (match cs.findIdx? (· = '=') with
      | some i =>
        { r with flagAbsent := false, valueSpecified := true,
                 flagIsCharacter := false, charKey := nulChar,
                 key := ⟨cs.take i⟩, value := ⟨cs.drop (i + 1)⟩,
                 position := r.position + 1 }
      | none =>
        { r with flagAbsent := false, valueSpecified := false,
                 flagIsCharacter := false, charKey := nulChar, value := "",
                 key := ⟨cs⟩, position := r.position + 1 }) := by
  simp only [Reader.parseNextArg, hq]
  rw [if_neg h1, if_neg h2, harg]
  cases hf : cs.findIdx? (· = '=') with
  | some i => simp [String.toList, hf]
  | none => simp [String.toList, hf]

/-- The cursor advances by exactly one raw argument when no stacked
short flag is pending and the stream has not ended. -/
theorem parseNextArg_position_succ (r : Reader) (hq : r.charFlags = [])
    (h1 : ¬ r.position ≥ r.argc) : (r.parseNextArg).position = r.position + 1 := by
  simp only [Reader.parseNextArg, hq]
  rw [if_neg h1]
  by_cases h2 : r.position + 1 ≥ r.argc
  · rw [if_pos h2]
  · rw [if_neg h2]
    split <;> try split
    all_goals rfl

/-- The reader after tokenizing `--name=value`: a long flag with the
value attached. -/
def c9R1 (nm v : String) (rest : List String) : Reader :=
  { argc := 2 + rest.length, argv := "prog" :: ("--" ++ nm ++ "=" ++ v) :: rest,
    key := nm, value := v, flagAbsent := false, valueSpecified := true, position := 1 }

/-- The reader after tokenizing `--name` with the value as a separate
raw argument: a long flag with no attached value. -/
def c9R2 (nm v : String) (rest : List String) : Reader :=
  { argc := 3 + rest.length, argv := "prog" :: ("--" ++ nm) :: v :: rest,
    key := nm, flagAbsent := false, position := 1 }

theorem c9R1_spec (nm v : String) (rest : List String) (hne : '=' ∉ nm.data) :
    (mkReader ((2 + rest.length : Nat) : Int)
        ("prog" :: ("--" ++ nm ++ "=" ++ v) :: rest)).parseNextArg = c9R1 nm v rest := by
  have hdat : ("--" ++ nm ++ "=" ++ v).data = '-' :: '-' :: (nm.data ++ '=' :: v.data) := by
    have d1 : ("--" : String).data = ['-', '-'] := rfl
    have d2 : ("=" : String).data = ['='] := rfl
    simp [String.data_append, d1, d2]
  have hstr : ("--" ++ nm ++ "=" ++ v) = ⟨'-' :: '-' :: (nm.data ++ '=' :: v.data)⟩ := by
    conv_lhs => rw [show ("--" ++ nm ++ "=" ++ v) = ⟨("--" ++ nm ++ "=" ++ v).data⟩ from rfl]
    rw [hdat]
  have hmk : mkReader ((2 + rest.length : Nat) : Int)
      ("prog" :: ("--" ++ nm ++ "=" ++ v) :: rest) =
      { argc := 2 + rest.length,
        argv := "prog" :: ("--" ++ nm ++ "=" ++ v) :: rest } := by
    simp [mkReader]
    omega
  rw [hmk]
  rw [parseNextArg_long _ (nm.data ++ '=' :: v.data) rfl (by simp <;> omega)
    (by simp <;> omega) (by simp [List.getD, hstr])]
  rw [findIdxSplit nm.data v.data hne]
  have htake : (nm.data ++ '=' :: v.data).take nm.data.length = nm.data :=
    List.take_left nm.data _
  have hdrop : (nm.data ++ '=' :: v.data).drop (nm.data.length + 1) = v.data := by
    have hsplit : nm.data ++ '=' :: v.data = (nm.data ++ ['=']) ++ v.data := by simp
    have hlen : (nm.data ++ ['=']).length = nm.data.length + 1 := by simp
    rw [hsplit, ← hlen, List.drop_left]
  have htake2 : List.take nm.length (nm.data ++ '=' :: v.data) = nm.data := htake
  have hdrop2 : List.drop (nm.length + 1) (nm.data ++ '=' :: v.data) = v.data := hdrop
  have hnm : (⟨nm.data⟩ : String) = nm := rfl
  have hv : (⟨v.data⟩ : String) = v := rfl
  simp [c9R1, htake, hdrop, htake2, hdrop2, hnm, hv]

theorem c9R2_spec (nm v : String) (rest : List String) (hne : '=' ∉ nm.data) :
    (mkReader ((3 + rest.length : Nat) : Int)
        ("prog" :: ("--" ++ nm) :: v :: rest)).parseNextArg = c9R2 nm v rest := by
  have hdat : ("--" ++ nm).data = '-' :: '-' :: nm.data := by
    have d1 : ("--" : String).data = ['-', '-'] := rfl
    simp [String.data_append, d1]
  have hstr : ("--" ++ nm) = ⟨'-' :: '-' :: nm.data⟩ := by
    conv_lhs => rw [show ("--" ++ nm) = ⟨("--" ++ nm).data⟩ from rfl]
    rw [hdat]
  have hmk : mkReader ((3 + rest.length : Nat) : Int)
      ("prog" :: ("--" ++ nm) :: v :: rest) =
      { argc := 3 + rest.length, argv := "prog" :: ("--" ++ nm) :: v :: rest } := by
    simp [mkReader]
    omega
  rw [hmk]
  rw [parseNextArg_long _ nm.data rfl (by simp <;> omega) (by simp <;> omega)
    (by simp [List.getD, hstr])]
  rw [findIdxClean nm.data hne]
  have hnm : (⟨nm.data⟩ : String) = nm := rfl
  simp [c9R2, hnm]

/-- One unfolding of the group consume for an anonymous group handed a
long-flag token. -/
theorem parseArgsR_grp_longEntry (fuel : Nat) (ms : List FlagNode) (r : Reader)
    (hl : r.hasLongFlag = true) (hs : r.hasShortFlag = false) :
    parseArgsR (fuel + 1) (.grp "" nulChar ms) r =
      (match groupLoop fuel ms r with
       | none => none
       | some (ok, ms', r') => some (ok, .grp "" nulChar ms', r')) := by
  simp only [parseArgsR]
  rw [if_neg (by simp [hl, hs])]
  rw [if_neg (by simp)]

/-- One iteration of the dispatch loop on a long-flag token that
resolves to a not-yet-full member. -/
theorem groupLoop_dispatch_long (fuel : Nat) (ms : List FlagNode) (r : Reader) (i : Nat)
    (he : r.atEnd = false) (hl : r.hasLongFlag = true)
    (hidx : lookupLongIdx ms r.getLongFlag = some i)
    (hcap : (getMember ms i).atCapacity = false) :
    groupLoop (fuel + 1) ms r =
      (match parseArgsR fuel (getMember ms i) r with
       | none => none
       | some (false, m', r') => some (false, ms.set i m', r')
       | some (true, m', r') =>
         if r'.tell = r.tell then some (true, ms.set i m', r')
         else groupLoop fuel (ms.set i m') r') := by
  simp only [groupLoop, he, hl, hidx, hcap]
  simp

/-- Singleton consume when the token has an attached value. -/
theorem parseArgsR_prim_attached (fuel : Nat) (ln : String) (sn : Char)
    (pt : PrimType) (p : Bool) (pv : PValue) (r : Reader) (hv : r.hasValue = true) :
    parseArgsR (fuel + 1) (.prim ln sn pt p pv) r =
      (match parsePrim pt r.getValue with
       | none => some (false, .prim ln sn pt p pv, r)
       | some w => some (true, .prim ln sn pt true w, r.parseNextArg)) := by
  simp only [parseArgsR, hv]
  simp

/-- Singleton consume when the token has no attached value and raw
arguments remain: the next raw argument is pulled. -/
theorem parseArgsR_prim_pull (fuel : Nat) (ln : String) (sn : Char)
    (pt : PrimType) (p : Bool) (pv : PValue) (r : Reader)
    (hv : r.hasValue = false) (hm : r.hasMoreArguments = true) :
    parseArgsR (fuel + 1) (.prim ln sn pt p pv) r =
      (match parsePrim pt (r.nextRawArgument).1 with
       | none => some (false, .prim ln sn pt p pv, (r.nextRawArgument).2)
       | some w => some (true, .prim ln sn pt true w,
           (r.nextRawArgument).2.parseNextArg)) := by
  simp only [parseArgsR, hv, hm]
  simp

/-- Claim C9: a value-taking flag written `--name=value` and the same
flag written `--name value` (value as the following raw argument) leave
the whole flag tree in identical resulting state — for every element
type, every name without `=`, every value string (valid or not), every
remaining argument list and every member list dispatching `name` to a
fresh singleton flag, and at every fuel. -/
theorem c9_attached_vs_separate
    (fuel : Nat) (nm v : String) (rest : List String) (ms : List FlagNode)
    (i : Nat) (sn : Char) (pt : PrimType) (pv : PValue)
    (hne : '=' ∉ nm.data)
    (hlook : lookupLongIdx ms nm = some i)
    (hmem : getMember ms i = .prim nm sn pt false pv) :
    parseArgs fuel ((2 + rest.length : Nat) : Int)
        ("prog" :: ("--" ++ nm ++ "=" ++ v) :: rest) (.grp "" nulChar ms) =
      parseArgs fuel ((3 + rest.length : Nat) : Int)
        ("prog" :: ("--" ++ nm) :: v :: rest) (.grp "" nulChar ms) := by
  have hlt₁ : ¬ ((2 + rest.length : Nat) : Int) < 2 := by push_cast; omega
  have hlt₂ : ¬ ((3 + rest.length : Nat) : Int) < 2 := by push_cast; omega
  unfold parseArgs
  rw [if_neg hlt₁, if_neg hlt₂, c9R1_spec nm v rest hne, c9R2_spec nm v rest hne]
  match fuel with
  | 0 => rfl
  | 1 => rfl
  | (j + 2) =>
    have hcap : (getMember ms i).atCapacity = false := by
      rw [hmem]; rfl
    have e₁ : parseArgsR (j + 2) (.grp "" nulChar ms) (c9R1 nm v rest) =
        (match groupLoop (j + 1) ms (c9R1 nm v rest) with
         | none => none
         | some (ok, ms', r') => some (ok, .grp "" nulChar ms', r')) :=
      parseArgsR_grp_longEntry (j + 1) ms (c9R1 nm v rest) rfl rfl
    have e₂ : parseArgsR (j + 2) (.grp "" nulChar ms) (c9R2 nm v rest) =
        (match groupLoop (j + 1) ms (c9R2 nm v rest) with
         | none => none
         | some (ok, ms', r') => some (ok, .grp "" nulChar ms', r')) :=
      parseArgsR_grp_longEntry (j + 1) ms (c9R2 nm v rest) rfl rfl
    rw [e₁, e₂,
      groupLoop_dispatch_long j ms (c9R1 nm v rest) i rfl rfl hlook hcap,
      groupLoop_dispatch_long j ms (c9R2 nm v rest) i rfl rfl hlook hcap,
      hmem]
    match j with
    | 0 => rfl
    | (k + 1) =>
      have hm₂ : (c9R2 nm v rest).hasMoreArguments = true := by
        simp [c9R2, Reader.hasMoreArguments]
        omega
      rw [parseArgsR_prim_attached k nm sn pt false pv (c9R1 nm v rest) rfl,
        parseArgsR_prim_pull k nm sn pt false pv (c9R2 nm v rest) rfl hm₂]
      have hval₂ : ((c9R2 nm v rest).nextRawArgument).1 = v := by
        simp [Reader.nextRawArgument, c9R2, List.getD]
      rw [show (c9R1 nm v rest).getValue = v from rfl, hval₂]
      cases hp : parsePrim pt v with
      | none => simp
      | some w =>
        simp only []
        have hppos₁ : ((c9R1 nm v rest).parseNextArg).position = 2 := by
          rw [parseNextArg_position_succ _ rfl (by simp [c9R1]; omega)]
          rfl
        have hnrpos : ((c9R2 nm v rest).nextRawArgument).2.position = 2 := by
          simp [Reader.nextRawArgument, c9R2]
        have hnrq : ((c9R2 nm v rest).nextRawArgument).2.charFlags = [] := by
          simp [Reader.nextRawArgument, c9R2]
        have hppos₂ : (((c9R2 nm v rest).nextRawArgument).2.parseNextArg).position = 3 := by
          rw [parseNextArg_position_succ _ hnrq
            (by simp [Reader.nextRawArgument, c9R2]; omega)]
          rw [hnrpos]
        have ht₁ : ¬ ((c9R1 nm v rest).parseNextArg.tell = (c9R1 nm v rest).tell) := by
          simp only [Reader.tell, hppos₁, show (c9R1 nm v rest).position = 1 from rfl]
          decide
        have ht₂ : ¬ (((c9R2 nm v rest).nextRawArgument).2.parseNextArg.tell
            = (c9R2 nm v rest).tell) := by
          simp only [Reader.tell, hppos₂, show (c9R2 nm v rest).position = 1 from rfl]
          decide
        rw [if_neg ht₁, if_neg ht₂]
        have hsim : SimR ((c9R1 nm v rest).parseNextArg)
            (((c9R2 nm v rest).nextRawArgument).2.parseNextArg) := by
          refine (parseNextArg_stepSim (c9R1 nm v rest)
            ((c9R2 nm v rest).nextRawArgument).2 ?_ ?_ ?_ ?_ ?_).sim
          · simp [c9R1, Reader.nextRawArgument, c9R2]
          · intro hcf
            exact absurd rfl hcf
          · simp [c9R1, Reader.nextRawArgument, c9R2]
          · simp [c9R1, Reader.nextRawArgument, c9R2]
            omega
          · simp [c9R1, Reader.nextRawArgument, c9R2]
        rcases simGroup (k + 1) (ms.set i (.prim nm sn pt true w))
            ((c9R1 nm v rest).parseNextArg)
            (((c9R2 nm v rest).nextRawArgument).2.parseNextArg) hsim with
          ⟨g1, g2⟩ | ⟨ok, ms', t₁, t₂, g1, g2, stepT⟩
        · rw [g1, g2]
        · rw [g1, g2]
          have hend : t₁.atEnd = t₂.atEnd := stepT.sim.hCleared
          cases ok <;> simp [hend]

/-- Members used to instantiate claim C9 concretely. -/
def c9ms : List FlagNode :=
  [.prim "param" nulChar .pI64 false (.vInt 0),
   .prim "alive" nulChar .pBool false (.vBool false)]

theorem c9_witness :
    (parseArgs 17 ((2 + (["--alive=true"] : List String).length : Nat) : Int)
        ("prog" :: ("--" ++ "param" ++ "=" ++ "20") :: ["--alive=true"])
        (.grp "" nulChar c9ms) =
      parseArgs 17 ((3 + (["--alive=true"] : List String).length : Nat) : Int)
        ("prog" :: ("--" ++ "param") :: "20" :: ["--alive=true"])
        (.grp "" nulChar c9ms)) ∧
    parseArgs 17 3 ["prog", "--param=20", "--alive=true"] (.grp "" nulChar c9ms) =
      some (true, .grp "" nulChar
        [.prim "param" nulChar .pI64 true (.vInt 20),
         .prim "alive" nulChar .pBool true (.vBool true)]) :=
  ⟨c9_attached_vs_separate 17 "param" "20" ["--alive=true"] c9ms 0 nulChar .pI64
      (.vInt 0) (by decide) (by decide) (by decide),
    by decide⟩

end DeepFlags
